import Mathlib

/-!
# Verification of the POS order-lifecycle and reporting logic

Shallow embedding of the order lifecycle and reporting aggregation of a
browser-based point-of-sale application, together with proofs and
refutations of the specification's claims about it.

Modelling conventions:
* Instants (JS `Date` values, ISO / locale timestamp strings) are modelled
  as exact rationals counting milliseconds; `new Date(s).getTime()` is the
  identity on this representation.  Calendar days (`format(d, 'yyyy-MM-dd')`)
  are modelled as the integer `⌊t / msPerDay⌋`.
* JS numbers are modelled as exact rationals; where a computation can
  produce `NaN`/`Infinity` (division by zero) we use an explicit `JsVal`
  type instead of ℚ.
* Optional fields (`startTime?`, `preparationTime?`, …) are `Option`s;
  a JS truthiness test on such a field is `Option.isSome` (the only falsy
  inhabitants in the source's usage are `undefined`).
* Stateful React components are modelled as explicit state records; each
  handler is a state-transformer function.  `localStorage.setItem('orders', …)`
  writes the `stored` field of the state.
-/

/-- Line item of an order.  `orders.tsx` declares `{id, name, quantity, price}`,
`reports.tsx` additionally reads `category`; we use the union of the fields. -/
structure OrderItem where
  id : String
  name : String
  quantity : ℕ
  price : ℚ
  category : String
deriving DecidableEq

/-- The `Order` interface shared by `pos.tsx`, `orders.tsx` and `reports.tsx`. -/
structure Order where
  id : ℤ
  customerName : String
  status : String
  timestamp : ℚ
  items : List OrderItem
  total : ℚ
  isComplimentary : Bool
  queueTime : ℚ
  preparationTime : Option ℚ
  leadInterest : Option Bool
  startTime : Option ℚ
  notes : Option String
deriving DecidableEq

/-- Milliseconds per calendar day. -/
def msPerDay : ℚ := 86400000

/-- Calendar day of an instant (the day `format(new Date(t), 'yyyy-MM-dd')`
denotes), as an integer day number. -/
def dayOf (t : ℚ) : ℤ := ⌊t / msPerDay⌋

namespace Orders

/-- State of the `ActiveOrders` component in `src/pages/orders.tsx`:
`orders` (active working list), `allOrders` (in-session historical list) and
`stored` (the persisted `localStorage` slot `'orders'`). -/
structure OrdersState where
  orders : List Order
  allOrders : List Order
  stored : List Order
deriving DecidableEq

/-- `calculateTotal` (orders.tsx line 208):
`items.reduce((sum, item) => sum + item.price * item.quantity, 0)`. -/
def calculateTotal (items : List OrderItem) : ℚ :=
  items.foldl (fun sum item => sum + item.price * (item.quantity : ℚ)) 0

/-- Body of the `orders.map` callback in `updateOrderStatus`
(orders.tsx lines 243–254): sets the new status and, exactly when
`newStatus === 'Completed' && order.startTime`, sets
`preparationTime = (endTime.getTime() - startTime.getTime()) / 1000`. -/
def updateOne (now : ℚ) (newStatus : String) (o : Order) : Order :=
  match o.startTime with
  | some t =>
      if newStatus = "Completed" then
        { o with status := newStatus, preparationTime := some ((now - t) / 1000) }
      else
        { o with status := newStatus }
  | none => { o with status := newStatus }

/-- `updateOrderStatus` (orders.tsx lines 242–261).  The mapped list is
installed as the active list, the historical list and the persisted slot. -/
def updateOrderStatus (now : ℚ) (orderId : ℤ) (newStatus : String)
    (st : OrdersState) : OrdersState :=
  let updatedOrders := st.orders.map (fun o =>
    if o.id = orderId then updateOne now newStatus o else o)
  { orders := updatedOrders, allOrders := updatedOrders, stored := updatedOrders }

/-- `cancelOrder` (orders.tsx lines 276–287).  The `window.confirm` dialog is
the boolean parameter.  Note there is no status precondition: the order is
removed from the active list and marked `'Cancelled'` in the historical list
whatever its current status; the persisted slot receives the filtered active
list. -/
def cancelOrder (confirm : Bool) (orderId : ℤ) (st : OrdersState) : OrdersState :=
  if confirm then
    let updatedOrders := st.orders.filter (fun o => o.id ≠ orderId)
    let updatedAllOrders := st.allOrders.map (fun o =>
      if o.id = orderId then { o with status := "Cancelled" } else o)
    { orders := updatedOrders, allOrders := updatedAllOrders, stored := updatedOrders }
  else st

/-- The cancel button's `disabled` attribute (orders.tsx line 753):
`disabled={order.status !== 'Pending'}`. -/
def cancelDisabled (o : Order) : Bool := o.status ≠ "Pending"

/-- The order object built by `saveModifiedOrder` (orders.tsx lines 305–310):
`{...selectedOrder, items: editedItems, notes: orderNotes, total: calculateTotal(editedItems)}`. -/
def mkModifiedOrder (selected : Order) (editedItems : List OrderItem)
    (orderNotes : String) : Order :=
  { selected with
      items := editedItems
      notes := some orderNotes
      total := calculateTotal editedItems }

/-- `saveModifiedOrder` (orders.tsx lines 302–323). -/
def saveModifiedOrder (selected : Order) (editedItems : List OrderItem)
    (orderNotes : String) (st : OrdersState) : OrdersState :=
  let modifiedOrder := mkModifiedOrder selected editedItems orderNotes
  let updatedOrders := st.orders.map (fun o =>
    if o.id = modifiedOrder.id then modifiedOrder else o)
  { orders := updatedOrders, allOrders := updatedOrders, stored := updatedOrders }

/-- `confirmClearAllOrders` (orders.tsx lines 375–387): every historical order
whose id occurs in the active list is marked `'Cleared'` in the in-memory
historical list, the active list is emptied, and — crucially — the persisted
slot is overwritten with `JSON.stringify([])`. -/
def confirmClearAllOrders (st : OrdersState) : OrdersState :=
  let clearedOrders := st.allOrders.map (fun o =>
    if st.orders.any (fun activeOrder => activeOrder.id = o.id) then
      { o with status := "Cleared" }
    else o)
  { orders := [], allOrders := clearedOrders, stored := [] }

/-- Value held by a persisted slot after `localStorage.setItem(key, v)`.
`JSON.stringify(undefined)` evaluates to `undefined`, which `setItem`
coerces to the literal string `"undefined"`: that outcome is the
`undefinedText` constructor, distinct from every JSON value. -/
inductive StoredVal (α : Type) where
  | json (v : α)
  | undefinedText
deriving DecidableEq

/-- The three persisted slots touched by import/export (orders.tsx 411–457).
The preferences and inventory payloads are opaque to the orders page; they are
modelled as their raw JSON text. -/
structure Storage where
  orders : StoredVal (List Order)
  preferences : StoredVal String
  inventory : StoredVal String
deriving DecidableEq

/-- Result of `JSON.parse` on an uploaded document: each expected key is
present or absent. -/
structure ExportDoc where
  orders : Option (List Order)
  preferences : Option String
  inventory : Option String
deriving DecidableEq

/-- `JSON.stringify` of a possibly-missing field followed by `setItem`:
a present value is stored as JSON, a missing one stores the string
`"undefined"`. -/
def serializeField {α : Type} : Option α → StoredVal α
  | some v => StoredVal.json v
  | none => StoredVal.undefinedText

/-- `importData` (orders.tsx lines 433–457).  The `try`/`catch` only guards
`JSON.parse`: a document that fails to parse leaves storage untouched, but a
document that parses is written slot-by-slot with no shape validation. -/
def importData (parsed : Except String ExportDoc) (store : Storage) : Storage :=
  match parsed with
  | Except.error _ => store
  | Except.ok data =>
      { orders := serializeField data.orders
        preferences := serializeField data.preferences
        inventory := serializeField data.inventory }

/-- `loadOrders` (orders.tsx lines 107–122) reading the persisted slot:
`JSON.parse` of the literal string `"undefined"` throws, which the component
surfaces as the load-failure state. -/
def loadOrdersSlot : StoredVal (List Order) → Except String (List Order)
  | StoredVal.json l => Except.ok l
  | StoredVal.undefinedText => Except.error "Failed to load orders. Please try again."

end Orders

namespace Pos

/-- Numeric value of `x.toFixed(2)`: rounding to two decimal places. -/
def toFixed2 (q : ℚ) : ℚ := (round (q * 100) : ℚ) / 100

/-- `calculateTotal` (pos.tsx lines 196–202): `0` in complimentary mode, else
the cart sum rounded by `.toFixed(2)`. -/
def calculateTotal (isComplimentaryMode : Bool) (cart : List OrderItem) : ℚ :=
  if isComplimentaryMode then 0
  else toFixed2 (cart.foldl (fun sum item => sum + item.price * (item.quantity : ℚ)) 0)

/-- The `newOrder` object built by `confirmOrder` (pos.tsx lines 209–226).
`orderStartTime = new Date()` is the placement instant `now`; both
`timestamp` and `startTime` are taken from it, and `queueTime` is
`(now − queueStartTime) / 1000` when a queue start was recorded, else 0. -/
def mkNewOrder (now : ℚ) (orderNumber : ℤ) (customerName : String)
    (cart : List OrderItem) (isComplimentaryMode : Bool)
    (queueStartTime : Option ℚ) : Order :=
  { id := orderNumber
    customerName := customerName
    status := "Pending"
    timestamp := now
    items := cart
    total := calculateTotal isComplimentaryMode cart
    isComplimentary := isComplimentaryMode
    queueTime := match queueStartTime with
      | some q => (now - q) / 1000
      | none => 0
    preparationTime := none
    leadInterest := none
    startTime := some now
    notes := none }

/-- `confirmOrder`'s effect on the persisted order collection
(pos.tsx lines 228–230): the new order is prepended. -/
def confirmOrder (now : ℚ) (orderNumber : ℤ) (customerName : String)
    (cart : List OrderItem) (isComplimentaryMode : Bool)
    (queueStartTime : Option ℚ) (existingOrders : List Order) : List Order :=
  mkNewOrder now orderNumber customerName cart isComplimentaryMode queueStartTime
    :: existingOrders

end Pos

namespace Reports

/-- `filteredOrders` (reports.tsx lines 163–169): the orders whose timestamp
lies in the inclusive range `[rangeStart, rangeEnd]`. -/
def filteredOrders (orders : List Order) (rangeStart rangeEnd : ℚ) : List Order :=
  orders.filter (fun o => rangeStart ≤ o.timestamp ∧ o.timestamp ≤ rangeEnd)

/-- `totalSales` (reports.tsx lines 216–221); the same reduction is reused for
window sums in `salesGrowthRate`. -/
def totalSales (filtered : List Order) : ℚ :=
  filtered.foldl (fun sum o => sum + (if o.isComplimentary then 0 else o.total)) 0

/-- `averageOrderValue` (reports.tsx lines 225–228). -/
def averageOrderValue (filtered : List Order) : ℚ :=
  let paidOrders := filtered.filter (fun o => !o.isComplimentary)
  if 0 < paidOrders.length then totalSales filtered / (paidOrders.length : ℚ) else 0

/-- `eachDayOfInterval({start, end})` (date-fns): the calendar days from the
day of `rangeStart` through the day of `rangeEnd`, in ascending order.
(date-fns rejects an inverted interval; the claims only use `rangeStart ≤ rangeEnd`.) -/
def eachDayOfInterval (rangeStart rangeEnd : ℚ) : List ℤ :=
  (List.range ((dayOf rangeEnd - dayOf rangeStart).toNat + 1)).map
    (fun i : ℕ => dayOf rangeStart + (i : ℤ))

/-- The JS object `data : { [date]: { sales, orders } }` of `salesData`,
as an insertion-ordered association list keyed by calendar day. -/
abbrev SalesDict := List (ℤ × ℚ × ℕ)

/-- One `filteredOrders.forEach` step of `salesData` (reports.tsx 181–188):
`if (!data[date]) data[date] = {sales: 0, orders: 0}`, then
`data[date].sales += s; data[date].orders += 1`. -/
def upsertDay (d : ℤ) (s : ℚ) : SalesDict → SalesDict
  | [] => [(d, s, 1)]
  | (k, sales, cnt) :: rest =>
      if k = d then (k, sales + s, cnt + 1) :: rest
      else (k, sales, cnt) :: upsertDay d s rest

/-- The per-order contribution added to a day's `sales`:
`order.isComplimentary ? 0 : order.total`. -/
def salesContribution (o : Order) : ℚ := if o.isComplimentary then 0 else o.total

/-- One row of the daily series. -/
structure DayEntry where
  date : ℤ
  sales : ℚ
  orders : ℕ
deriving DecidableEq

/-- `salesData` (reports.tsx lines 171–196): zero-fill one dictionary entry per
day of the range, accumulate every filtered order into its day, then emit the
entries sorted ascending by date (the `localeCompare` on `yyyy-MM-dd` strings
is exactly the day-number order).  JS `Array.sort` is stable, so its result is
the unique stable ordering by the comparator, which `insertionSort` computes. -/
def salesData (orders : List Order) (rangeStart rangeEnd : ℚ) : List DayEntry :=
  let days := eachDayOfInterval rangeStart rangeEnd
  let init : SalesDict := days.map (fun d => (d, (0 : ℚ), (0 : ℕ)))
  let filled := (filteredOrders orders rangeStart rangeEnd).foldl
    (fun dict o => upsertDay (dayOf o.timestamp) (salesContribution o) dict) init
  (List.insertionSort (fun a b => a.1 ≤ b.1) filled).map
    (fun e => ⟨e.1, e.2.1, e.2.2⟩)

/-- A JS number that may be `NaN` or an infinity (division by zero). -/
inductive JsVal where
  | fin (q : ℚ)
  | nan
  | posInf
  | negInf
deriving DecidableEq

/-- The JS expression `((v - p) / p) * 100` under IEEE semantics for a zero
denominator: `0/0` is `NaN`, `x/0` is `±Infinity` for `x ≠ 0`, and both
absorb the `* 100`. -/
def jsGrowthExpr (v p : ℚ) : JsVal :=
  if p = 0 then
    if v = p then JsVal.nan
    else if p < v then JsVal.posInf
    else JsVal.negInf
  else JsVal.fin ((v - p) / p * 100)

/-- `previousSales` in `enhancedSalesTrend` (reports.tsx line 267):
`salesValues[index - 1] || salesValues[index]`.  At index 0 the lookup is
`undefined` (falsy); at a later index a value of `0` is also falsy, so the
current value is substituted in both cases. -/
def previousSalesAt (vals : List ℚ) (i : ℕ) : ℚ :=
  if i = 0 then vals.getD i 0
  else if vals.getD (i - 1) 0 = 0 then vals.getD i 0
  else vals.getD (i - 1) 0

/-- `salesGrowth` of the series entry at index `i`
(reports.tsx lines 266–270). -/
def salesGrowthAt (vals : List ℚ) (i : ℕ) : JsVal :=
  jsGrowthExpr (vals.getD i 0) (previousSalesAt vals i)

/-- Total sales of the equal-length window immediately preceding the selected
range (reports.tsx lines 420–435): orders with
`previousPeriodStart ≤ timestamp < start`, summed non-complimentary. -/
def prevWindowSales (orders : List Order) (rangeStart rangeEnd : ℚ) : ℚ :=
  let periodLength := rangeEnd - rangeStart
  let previousPeriodStart := rangeStart - periodLength
  totalSales (orders.filter (fun o =>
    previousPeriodStart ≤ o.timestamp ∧ o.timestamp < rangeStart))

/-- `salesGrowthRate` (reports.tsx lines 418–440). -/
def salesGrowthRate (orders : List Order) (rangeStart rangeEnd : ℚ) : ℚ :=
  let currentPeriodSales := totalSales (filteredOrders orders rangeStart rangeEnd)
  let previousPeriodSales := prevWindowSales orders rangeStart rangeEnd
  if previousPeriodSales ≠ 0 then
    (currentPeriodSales - previousPeriodSales) / previousPeriodSales * 100
  else 100

end Reports

namespace Archive

/-- State of the second `ActiveOrders` component (`src/unnamed/part_001`,
lines 1058 ff.), the variant that owns the ID-reset action.  Besides the three
order lists it carries the filter/sort settings that determine the displayed
order of the list. -/
structure ArchiveState where
  orders : List Order
  allOrders : List Order
  stored : List Order
  statusFilter : String
  sortCriteria : String
  sortDirection : String
deriving DecidableEq

/-- `orders.map((order, index) => ({ ...order, id: index + 1 }))`
(part_001 lines 1249–1256), with `n` the index of the first element. -/
def resetIds : ℕ → List Order → List Order
  | _, [] => []
  | n, o :: rest => { o with id := (n : ℤ) + 1 } :: resetIds (n + 1) rest

/-- `confirmRestartOrderId` (part_001 lines 1248–1262): positional reassignment
over the stored active and historical arrays; the persisted slot receives the
reset active list. -/
def confirmRestartOrderId (st : ArchiveState) : ArchiveState :=
  { st with
      orders := resetIds 0 st.orders
      allOrders := resetIds 0 st.allOrders
      stored := resetIds 0 st.orders }

/-- The JS sort comparator of `filterAndSortOrders` (part_001 lines 1095–1104):
timestamp, preparation time (`b.preparationTime || 0`) or queue time, each
descending; any other criterion compares equal. -/
def jsCompare (criteria : String) (a b : Order) : ℚ :=
  if criteria = "timestamp" then b.timestamp - a.timestamp
  else if criteria = "preparationTime" then
    b.preparationTime.getD 0 - a.preparationTime.getD 0
  else if criteria = "queueTime" then b.queueTime - a.queueTime
  else 0

/-- `filterAndSortOrders` (part_001 lines 1089–1111): status filter, stable
sort by the comparator, and a reversal when the direction is `'asc'`.
JS `Array.sort` is stable; a stable sort places `a` before `b` exactly when
`compare a b ≤ 0`, which is what `insertionSort` with that relation computes.
The result is the displayed order of the active list. -/
def filterAndSortOrders (st : ArchiveState) : List Order :=
  let filtered :=
    if st.statusFilter ≠ "All" then
      st.orders.filter (fun o => o.status = st.statusFilter)
    else st.orders
  let sorted := List.insertionSort
    (fun a b => jsCompare st.sortCriteria a b ≤ 0) filtered
  if st.sortDirection = "asc" then sorted.reverse else sorted

end Archive

namespace Reports

/-- Sales accumulated on day `k` by the `forEach` of `salesData`: the sum of
`salesContribution` over the filtered orders falling on that day. -/
def daySum (l : List Order) (k : ℤ) : ℚ :=
  ((l.filter (fun o => dayOf o.timestamp = k)).map salesContribution).sum

/-- Order count accumulated on day `k` by the `forEach` of `salesData`. -/
def dayCount (l : List Order) (k : ℤ) : ℕ :=
  (l.filter (fun o => dayOf o.timestamp = k)).length

end Reports

/-! ### Concrete sample data used by counterexamples and witnesses -/

/-- A line item: a $1.99 latte, quantity 2. -/
def latteItem : OrderItem :=
  { id := "i1", name := "Latte", quantity := 2, price := 199 / 100, category := "Coffee" }

/-- A completed order (no startTime, no preparationTime). -/
def completedOrder : Order :=
  { id := 1, customerName := "Ada L.", status := "Completed", timestamp := 0
    items := [], total := 10, isComplimentary := false, queueTime := 0
    preparationTime := none, leadInterest := none, startTime := none, notes := none }

/-- A pending order whose `startTime` was recorded (at creation) as instant 0. -/
def pendingOrder : Order :=
  { id := 1, customerName := "Bo C.", status := "Pending", timestamp := 0
    items := [], total := 5, isComplimentary := false, queueTime := 0
    preparationTime := none, leadInterest := none, startTime := some 0, notes := none }

/-- An in-progress order with `startTime` recorded at instant 1000. -/
def startedOrder : Order :=
  { id := 2, customerName := "Cy D.", status := "In Progress", timestamp := 0
    items := [], total := 5, isComplimentary := false, queueTime := 0
    preparationTime := none, leadInterest := none, startTime := some 1000, notes := none }

/-- A complimentary order (nominal items, zero revenue). -/
def compOrder : Order :=
  { id := 3, customerName := "Di E.", status := "Completed", timestamp := 0
    items := [latteItem], total := 0, isComplimentary := true, queueTime := 0
    preparationTime := none, leadInterest := none, startTime := none, notes := none }

/-- A pending $10 order placed at instant 500 (within day 0). -/
def clearOrder : Order :=
  { id := 1, customerName := "Ed F.", status := "Pending", timestamp := 500
    items := [], total := 10, isComplimentary := false, queueTime := 0
    preparationTime := none, leadInterest := none, startTime := some 500, notes := none }

/-- Orders-page state holding exactly `completedOrder` everywhere. -/
def stCompleted : Orders.OrdersState :=
  { orders := [completedOrder], allOrders := [completedOrder], stored := [completedOrder] }

/-- Orders-page state holding exactly `pendingOrder` everywhere. -/
def stPending : Orders.OrdersState :=
  { orders := [pendingOrder], allOrders := [pendingOrder], stored := [pendingOrder] }

/-- Orders-page state holding exactly `clearOrder` everywhere. -/
def stClear : Orders.OrdersState :=
  { orders := [clearOrder], allOrders := [clearOrder], stored := [clearOrder] }

/-- A validly-parsing uploaded document that has `preferences` and `inventory`
keys but no `orders` key. -/
def docMissingOrders : Orders.ExportDoc :=
  { orders := none, preferences := some "prefs-json", inventory := some "inv-json" }

/-- Persisted storage before an import: one order, well-formed slots. -/
def storageBefore : Orders.Storage :=
  { orders := Orders.StoredVal.json [completedOrder]
    preferences := Orders.StoredVal.json "prefs-old"
    inventory := Orders.StoredVal.json "inv-old" }

/-- Order of customer "A", placed at instant 1000, current id 7. -/
def orderA : Order :=
  { id := 7, customerName := "A", status := "Pending", timestamp := 1000
    items := [], total := 1, isComplimentary := false, queueTime := 0
    preparationTime := none, leadInterest := none, startTime := some 1000, notes := none }

/-- Order of customer "B", placed later (instant 2000), current id 3. -/
def orderB : Order :=
  { id := 3, customerName := "B", status := "Pending", timestamp := 2000
    items := [], total := 2, isComplimentary := false, queueTime := 0
    preparationTime := none, leadInterest := none, startTime := some 2000, notes := none }

/-- Archive-page state: stored order `[orderA, orderB]` (insertion order),
default filters: all statuses, timestamp descending.  The displayed order is
`[orderB, orderA]` (newest first). -/
def stArchive : Archive.ArchiveState :=
  { orders := [orderA, orderB], allOrders := [orderA, orderB]
    stored := [orderA, orderB], statusFilter := "All"
    sortCriteria := "timestamp", sortDirection := "desc" }

/-! ### Shared helper lemmas -/

/-- A `reduce((sum, x) => sum + f(x), a)` is `a` plus the sum of the mapped list. -/
lemma foldl_add_eq_sum {α : Type} (f : α → ℚ) :
    ∀ (l : List α) (a : ℚ), l.foldl (fun s x => s + f x) a = a + (l.map f).sum := by
  intro l
  induction l with
  | nil => intro a; simp
  | cons x rest ih =>
      intro a
      simp only [List.foldl_cons, List.map_cons, List.sum_cons]
      rw [ih]
      ring

/-- `totalSales` is the sum of `salesContribution` over the list. -/
lemma totalSales_eq_sum (l : List Order) :
    Reports.totalSales l = (l.map Reports.salesContribution).sum := by
  unfold Reports.totalSales Reports.salesContribution
  simpa using foldl_add_eq_sum (fun o => if o.isComplimentary then 0 else o.total) l 0

/-- `calculateTotal` is the sum of `price × quantity` over the items. -/
lemma calculateTotal_eq_sum (items : List OrderItem) :
    Orders.calculateTotal items = (items.map (fun i => i.price * (i.quantity : ℚ))).sum := by
  unfold Orders.calculateTotal
  simpa using foldl_add_eq_sum (fun i : OrderItem => i.price * (i.quantity : ℚ)) items 0

/-! ### Claim C1 — cancelling a non-Pending order -/

/-- C1, as stated, is false: `cancelOrder` has no status precondition.  At the
concrete state holding one `Completed` order, a programmatic invocation removes
the order from the active list and marks it `Cancelled` in the historical
list — not a no-op. -/
theorem c1_cancel_not_noop_counterexample :
    completedOrder.status ≠ "Pending" ∧
    (Orders.cancelOrder true 1 stCompleted).orders = [] ∧
    (Orders.cancelOrder true 1 stCompleted).allOrders.map Order.status = ["Cancelled"] ∧
    (Orders.cancelOrder true 1 stCompleted).orders ≠ stCompleted.orders := by
  refine ⟨by simp [completedOrder], ?_, ?_, ?_⟩ <;>
    simp [Orders.cancelOrder, stCompleted, completedOrder]

/-- C1 (amended): for an order whose status is not `Pending` the cancel
control is disabled at the interface, so cancellation cannot be triggered
through the UI; the `cancelOrder` function itself checks no precondition, and
a direct invocation removes every order with the given id from the active list
and marks it `Cancelled` in the historical list regardless of its status. -/
theorem c1_cancel_gating (st : Orders.OrdersState) (o : Order)
    (h : o.status ≠ "Pending") :
    Orders.cancelDisabled o = true ∧
    (∀ x ∈ (Orders.cancelOrder true o.id st).orders, x.id ≠ o.id) ∧
    (∀ x ∈ st.allOrders, x.id = o.id →
      { x with status := "Cancelled" } ∈ (Orders.cancelOrder true o.id st).allOrders) := by
  refine ⟨by simp [Orders.cancelDisabled, h], ?_, ?_⟩
  · intro x hx
    simp only [Orders.cancelOrder, if_pos, List.mem_filter, decide_eq_true_eq] at hx
    exact hx.2
  · intro x hx hid
    simp only [Orders.cancelOrder, if_pos]
    exact List.mem_map.2 ⟨x, hx, by simp [hid]⟩

/-- Witness for `c1_cancel_gating` at the concrete completed order. -/
theorem c1_cancel_gating_witness :
    completedOrder.status ≠ "Pending" ∧
    Orders.cancelDisabled completedOrder = true ∧
    (∀ x ∈ (Orders.cancelOrder true completedOrder.id stCompleted).orders,
      x.id ≠ completedOrder.id) :=
  ⟨by simp [completedOrder],
   (c1_cancel_gating stCompleted completedOrder (by simp [completedOrder])).1,
   (c1_cancel_gating stCompleted completedOrder (by simp [completedOrder])).2.1⟩

/-! ### Claim C2 — preparation time on completion -/

/-- C2: completing an order that has a recorded `startTime = t` at instant
`now ≥ t` sets `preparationTime = (now − t)/1000` seconds, a non-negative
value; completing an order with no `startTime` (and no previously recorded
preparation time) leaves `preparationTime` undefined.  The last conjunct ties
the per-order transform to `updateOrderStatus` itself. -/
theorem c2_preparation_time (now t : ℚ) (o : Order) :
    (o.startTime = some t → t ≤ now →
      (Orders.updateOne now "Completed" o).preparationTime = some ((now - t) / 1000) ∧
      0 ≤ (now - t) / 1000) ∧
    (o.startTime = none → o.preparationTime = none →
      (Orders.updateOne now "Completed" o).preparationTime = none) ∧
    (∀ st : Orders.OrdersState, o ∈ st.orders →
      Orders.updateOne now "Completed" o ∈
        (Orders.updateOrderStatus now o.id "Completed" st).orders) := by
  refine ⟨?_, ?_, ?_⟩
  · intro h1 h2
    refine ⟨by simp [Orders.updateOne, h1], ?_⟩
    exact div_nonneg (sub_nonneg.2 h2) (by norm_num)
  · intro h1 h2
    simp [Orders.updateOne, h1, h2]
  · intro st hmem
    simp only [Orders.updateOrderStatus]
    exact List.mem_map.2 ⟨o, hmem, by simp⟩

/-- Witness for `c2_preparation_time`: completing `startedOrder`
(start instant 1000) at instant 3000 yields 2 seconds of preparation time. -/
theorem c2_preparation_time_witness :
    startedOrder.startTime = some 1000 ∧ (1000 : ℚ) ≤ 3000 ∧
    (Orders.updateOne 3000 "Completed" startedOrder).preparationTime =
      some ((3000 - 1000) / 1000) ∧
    0 ≤ ((3000 : ℚ) - 1000) / 1000 :=
  ⟨rfl, by norm_num,
   ((c2_preparation_time 3000 1000 startedOrder).1 rfl (by norm_num)).1,
   ((c2_preparation_time 3000 1000 startedOrder).1 rfl (by norm_num)).2⟩

/-! ### Claim C3 — startTime on the Pending → In Progress transition -/

/-- C3, as stated, is false: at the concrete state holding one pending order
whose `startTime` was recorded as instant 0 at creation, running the
`In Progress` transition at instant 5000 changes the status but leaves
`startTime` at 0 — it does not record `startTime = now`. -/
theorem c3_start_time_counterexample :
    pendingOrder.status = "Pending" ∧
    (Orders.updateOrderStatus 5000 1 "In Progress" stPending).orders.map
      Order.status = ["In Progress"] ∧
    (Orders.updateOrderStatus 5000 1 "In Progress" stPending).orders.map
      Order.startTime = [some 0] ∧
    some (0 : ℚ) ≠ some (5000 : ℚ) := by
  refine ⟨rfl, ?_, ?_, by norm_num⟩ <;>
    simp [Orders.updateOrderStatus, Orders.updateOne, stPending, pendingOrder]

/-- C3 (amended): the `In Progress` transition sets the status and leaves
`startTime` (and `preparationTime`) unchanged; `startTime` is instead recorded
at order creation — `confirmOrder` stamps the new order with
`startTime = now` at placement. -/
theorem c3_start_time_at_creation (now : ℚ) (o : Order) (orderNumber : ℤ)
    (customerName : String) (cart : List OrderItem) (isComp : Bool)
    (queueStart : Option ℚ) :
    (Orders.updateOne now "In Progress" o).startTime = o.startTime ∧
    (Orders.updateOne now "In Progress" o).status = "In Progress" ∧
    (Orders.updateOne now "In Progress" o).preparationTime = o.preparationTime ∧
    (Pos.mkNewOrder now orderNumber customerName cart isComp queueStart).startTime
      = some now := by
  refine ⟨?_, ?_, ?_, rfl⟩ <;>
    cases h : o.startTime <;> simp [Orders.updateOne, h]

/-! ### Claim C4 — bulk clear-all -/

/-- C4, as stated, is false in its persistence part: clearing the concrete
state with one active $10 order does mark the order `Cleared` in the
in-session historical list, but it overwrites the persisted slot with the
empty array, so an aggregate report computed afterwards from persisted
storage counts nothing — before the clear the same report counted $10. -/
theorem c4_clear_counterexample :
    (Orders.confirmClearAllOrders stClear).orders = [] ∧
    (Orders.confirmClearAllOrders stClear).allOrders.map Order.status = ["Cleared"] ∧
    (Orders.confirmClearAllOrders stClear).stored = [] ∧
    Reports.totalSales
      (Reports.filteredOrders (Orders.confirmClearAllOrders stClear).stored 0 1000) = 0 ∧
    Reports.totalSales (Reports.filteredOrders stClear.stored 0 1000) = 10 := by
  refine ⟨rfl, ?_, rfl,
    by simp [Reports.filteredOrders, Reports.totalSales, Orders.confirmClearAllOrders], ?_⟩
  · simp [Orders.confirmClearAllOrders, stClear, clearOrder]
  · simp [Reports.filteredOrders, Reports.totalSales, stClear, clearOrder]
    norm_num

/-- C4 (amended): after the bulk clear, the active list is empty and every
formerly-active order appears marked `Cleared` in the in-session historical
list; but the operation also overwrites the persisted orders slot with the
empty array, so the cleared orders survive only in memory (for the session's
PDF export) and do not count in reports computed afterwards from persisted
storage. -/
theorem c4_clear_semantics (st : Orders.OrdersState) :
    (Orders.confirmClearAllOrders st).orders = [] ∧
    (Orders.confirmClearAllOrders st).stored = [] ∧
    ∀ o ∈ st.allOrders, (st.orders.any fun a => a.id = o.id) = true →
      { o with status := "Cleared" } ∈ (Orders.confirmClearAllOrders st).allOrders := by
  refine ⟨rfl, rfl, ?_⟩
  intro o ho hactive
  simp only [Orders.confirmClearAllOrders]
  exact List.mem_map.2 ⟨o, ho, by simp [hactive]⟩

/-- Witness for `c4_clear_semantics` at the concrete one-order state. -/
theorem c4_clear_semantics_witness :
    clearOrder ∈ stClear.allOrders ∧
    (stClear.orders.any fun a => a.id = clearOrder.id) = true ∧
    { clearOrder with status := "Cleared" } ∈
      (Orders.confirmClearAllOrders stClear).allOrders :=
  ⟨by simp [stClear], by simp [stClear],
   (c4_clear_semantics stClear).2.2 clearOrder (by simp [stClear])
     (by simp [stClear])⟩

/-! ### Claim C5 — total is the sum of price × quantity -/

/-- C5: after any item mutation saved through the orders page, `total` is
recomputed as `Σ price × quantity` over the saved items; at creation the total
is 0 for a complimentary order and otherwise the cart sum (the source rounds
the creation sum with `.toFixed(2)`, so the sum is recovered exactly whenever
it is a whole number of cents, i.e. `sum × 100` is an integer). -/
theorem c5_total_invariant (selected : Order) (editedItems : List OrderItem)
    (orderNotes : String) (cart : List OrderItem) (now : ℚ) (orderNumber : ℤ)
    (customerName : String) (queueStart : Option ℚ) :
    Orders.calculateTotal editedItems =
      (editedItems.map (fun i => i.price * (i.quantity : ℚ))).sum ∧
    (Orders.mkModifiedOrder selected editedItems orderNotes).total =
      (editedItems.map (fun i => i.price * (i.quantity : ℚ))).sum ∧
    (Pos.mkNewOrder now orderNumber customerName cart true queueStart).total = 0 ∧
    (∀ m : ℤ, (cart.map (fun i => i.price * (i.quantity : ℚ))).sum * 100 = (m : ℚ) →
      (Pos.mkNewOrder now orderNumber customerName cart false queueStart).total =
        (cart.map (fun i => i.price * (i.quantity : ℚ))).sum) := by
  refine ⟨calculateTotal_eq_sum editedItems, ?_, rfl, ?_⟩
  · simpa [Orders.mkModifiedOrder] using calculateTotal_eq_sum editedItems
  · intro m hm
    simp only [Pos.mkNewOrder, Pos.calculateTotal, if_neg (by simp : ¬False), Bool.false_eq_true,
      if_false, Pos.toFixed2]
    rw [show (cart.foldl (fun sum item => sum + item.price * (item.quantity : ℚ)) 0)
        = (cart.map (fun i => i.price * (i.quantity : ℚ))).sum by
      simpa using foldl_add_eq_sum (fun i : OrderItem => i.price * (i.quantity : ℚ)) cart 0]
    rw [hm, round_intCast]
    field_simp
    linarith [hm]

/-- Witness for `c5_total_invariant`: a cart holding two $1.99 lattes sums to
$3.98, a whole number of cents, and the created order's total is that sum. -/
theorem c5_total_invariant_witness :
    ([latteItem].map (fun i => i.price * (i.quantity : ℚ))).sum * 100 = ((398 : ℤ) : ℚ) ∧
    (Pos.mkNewOrder 0 1 "Ada L." [latteItem] false none).total =
      ([latteItem].map (fun i => i.price * (i.quantity : ℚ))).sum :=
  ⟨by norm_num [latteItem],
   (c5_total_invariant completedOrder [] "" [latteItem] 0 1 "Ada L." none).2.2.2
     398 (by norm_num [latteItem])⟩

/-! ### Claim C7 — average order value -/

/-- C7: `averageOrderValue` equals `totalSales` divided by the number of
non-complimentary orders in the filtered set, and is 0 when that count is 0 —
in particular on the empty set and on a set of only complimentary orders. -/
theorem c7_average_order_value (filtered : List Order) :
    Reports.averageOrderValue filtered =
      (if (filtered.filter (fun o => !o.isComplimentary)).length = 0 then 0
       else Reports.totalSales filtered /
         ((filtered.filter (fun o => !o.isComplimentary)).length : ℚ)) ∧
    Reports.averageOrderValue [] = 0 ∧
    ((∀ o ∈ filtered, o.isComplimentary = true) →
      Reports.averageOrderValue filtered = 0) := by
  refine ⟨?_, rfl, ?_⟩
  · simp only [Reports.averageOrderValue]
    rcases Nat.eq_zero_or_pos (filtered.filter (fun o => !o.isComplimentary)).length
      with h | h
    · simp [h]
    · rw [if_pos h, if_neg (Nat.pos_iff_ne_zero.1 h)]
  · intro hall
    have hnil : filtered.filter (fun o => !o.isComplimentary) = [] := by
      rw [List.filter_eq_nil_iff]
      intro o ho
      simp [hall o ho]
    simp [Reports.averageOrderValue, hnil]

/-- Witness for `c7_average_order_value`: a set holding only the complimentary
sample order has average order value 0. -/
theorem c7_average_order_value_witness :
    (∀ o ∈ [compOrder], o.isComplimentary = true) ∧
    Reports.averageOrderValue [compOrder] = 0 :=
  ⟨by intro o ho; simp only [List.mem_singleton] at ho; simp [ho, compOrder],
   (c7_average_order_value [compOrder]).2.2
     (by intro o ho; simp only [List.mem_singleton] at ho; simp [ho, compOrder])⟩

/-! ### Claim C8 — growth rates -/

/-- C8, as stated, is false in its first part: on a series whose first value
is 0 (a zero-filled day), the index-0 day-over-day growth is computed as
`(0 − 0) / 0 × 100`, which is `NaN`, not 0. -/
theorem c8_growth_counterexample :
    Reports.salesGrowthAt [(0 : ℚ)] 0 = Reports.JsVal.nan ∧
    Reports.JsVal.nan ≠ Reports.JsVal.fin 0 := by
  constructor
  · simp [Reports.salesGrowthAt, Reports.previousSalesAt, Reports.jsGrowthExpr]
  · intro h
    cases h

/-- C8 (amended): the day-over-day growth at series index 0 compares the first
value with itself, yielding 0 when that value is nonzero and `NaN` when it is
0; the period-over-period `salesGrowthRate` is 100 whenever the immediately
preceding equal-length window has total sales exactly 0, and otherwise is
`(current − previous) / previous × 100`. -/
theorem c8_growth_semantics (vals : List ℚ) (orders : List Order)
    (rangeStart rangeEnd : ℚ) :
    Reports.salesGrowthAt vals 0 =
      (if vals.getD 0 0 = 0 then Reports.JsVal.nan else Reports.JsVal.fin 0) ∧
    Reports.salesGrowthRate orders rangeStart rangeEnd =
      (if Reports.prevWindowSales orders rangeStart rangeEnd = 0 then 100
       else (Reports.totalSales (Reports.filteredOrders orders rangeStart rangeEnd) -
          Reports.prevWindowSales orders rangeStart rangeEnd) /
          Reports.prevWindowSales orders rangeStart rangeEnd * 100) := by
  constructor
  · simp only [Reports.salesGrowthAt, Reports.previousSalesAt, if_pos rfl,
      Reports.jsGrowthExpr, eq_self_iff_true, if_true]
    rcases eq_or_ne (vals.getD 0 0) 0 with h | h
    · simp [h]
    · simp only [if_neg h, if_pos rfl, sub_self, zero_div, zero_mul]
  · simp only [Reports.salesGrowthRate]
    rcases eq_or_ne (Reports.prevWindowSales orders rangeStart rangeEnd) 0 with h | h
    · simp [h]
    · simp [h]

/-! ### Claim C9 — import of a document missing the orders key -/

/-- C9: the claim (and the spec's error-handling design) is right and the code
is wrong.  A document that parses as JSON but has no `orders` key is not
rejected: `JSON.stringify(data.orders)` is `undefined` and
`localStorage.setItem` coerces it to the string `"undefined"`, so the
persisted orders slot is overwritten (and the other slots too), after which
reloading the orders fails.  Evaluated at the concrete failing input. -/
theorem c9_import_overwrites_on_missing_key :
    Orders.importData (Except.ok docMissingOrders) storageBefore ≠ storageBefore ∧
    (Orders.importData (Except.ok docMissingOrders) storageBefore).orders =
      Orders.StoredVal.undefinedText ∧
    storageBefore.orders = Orders.StoredVal.json [completedOrder] ∧
    Orders.loadOrdersSlot
      (Orders.importData (Except.ok docMissingOrders) storageBefore).orders =
      Except.error "Failed to load orders. Please try again." := by
  refine ⟨?_, rfl, rfl, rfl⟩
  intro h
  have horders := congrArg Orders.Storage.orders h
  simp [Orders.importData, docMissingOrders, Orders.serializeField,
    storageBefore] at horders

/-! ### Claim C10 — ID reset -/

/-- Positional form of `resetIds`: the element at position `i` keeps all its
fields except `id`, which becomes the position (counted from `n`) plus 1. -/
lemma getD_resetIds (d : Order) :
    ∀ (l : List Order) (n i : ℕ), i < l.length →
      (Archive.resetIds n l).getD i d = { l.getD i d with id := ((n + i : ℕ) : ℤ) + 1 } := by
  intro l
  induction l with
  | nil => intro n i hi; simp at hi
  | cons o rest ih =>
      intro n i hi
      cases i with
      | zero => simp [Archive.resetIds]
      | succ j =>
          have hj : j < rest.length := by simpa using hi
          simp only [Archive.resetIds, List.getD_cons_succ]
          rw [ih (n + 1) j hj]
          have hcast : ((n + 1 + j : ℕ) : ℤ) + 1 = ((n + (j + 1) : ℕ) : ℤ) + 1 := by
            push_cast
            ring
          rw [hcast]

/-- C10, as stated, is false: in the concrete archive state the stored active
list is `[orderA, orderB]` but the displayed (sorted) order is
`[orderB, orderA]` (timestamp descending).  The reset assigns ids by stored
position — customer A gets id 1 — whereas the claim's display-positional rule
would give customer B id 1. -/
theorem c10_reset_counterexample :
    (Archive.filterAndSortOrders stArchive).map Order.customerName = ["B", "A"] ∧
    (Archive.confirmRestartOrderId stArchive).orders.map
      (fun o => (o.customerName, o.id)) = [("A", 1), ("B", 2)] ∧
    (Archive.resetIds 0 (Archive.filterAndSortOrders stArchive)).map
      (fun o => (o.customerName, o.id)) = [("B", 1), ("A", 2)] ∧
    (Archive.confirmRestartOrderId stArchive).orders.map
        (fun o => (o.customerName, o.id)) ≠
      (Archive.resetIds 0 (Archive.filterAndSortOrders stArchive)).map
        (fun o => (o.customerName, o.id)) := by
  have hd : ¬("desc" : String) = "asc" := by decide
  have hsort : Archive.filterAndSortOrders stArchive = [orderB, orderA] := by
    simp only [Archive.filterAndSortOrders, stArchive, Archive.jsCompare]
    norm_num [List.insertionSort, List.orderedInsert, orderA, orderB, hd]
  refine ⟨by rw [hsort]; simp [orderA, orderB], ?_,
    by rw [hsort]; simp [Archive.resetIds, orderA, orderB], ?_⟩
  · simp [Archive.confirmRestartOrderId, Archive.resetIds, stArchive, orderA, orderB]
  · rw [hsort]
    simp [Archive.confirmRestartOrderId, Archive.resetIds, stArchive, orderA, orderB]

/-- C10 (amended): the ID-reset reassigns `id = position + 1` positionally in
the underlying stored active and historical arrays (their insertion order),
independent of the currently displayed sort order, and persists the reset
active list. -/
theorem c10_reset_by_stored_position (st : Archive.ArchiveState) (d : Order)
    (i : ℕ) (hi : i < st.orders.length) (hj : i < st.allOrders.length) :
    (Archive.confirmRestartOrderId st).orders.getD i d =
      { st.orders.getD i d with id := (i : ℤ) + 1 } ∧
    (Archive.confirmRestartOrderId st).allOrders.getD i d =
      { st.allOrders.getD i d with id := (i : ℤ) + 1 } ∧
    (Archive.confirmRestartOrderId st).stored =
      (Archive.confirmRestartOrderId st).orders := by
  refine ⟨?_, ?_, rfl⟩
  · simpa using getD_resetIds d st.orders 0 i hi
  · simpa using getD_resetIds d st.allOrders 0 i hj

/-- Witness for `c10_reset_by_stored_position` at the concrete archive state:
position 0 (customer A, old id 7) receives id 1. -/
theorem c10_reset_by_stored_position_witness :
    0 < stArchive.orders.length ∧ 0 < stArchive.allOrders.length ∧
    (Archive.confirmRestartOrderId stArchive).orders.getD 0 orderA =
      { stArchive.orders.getD 0 orderA with id := ((0 : ℕ) : ℤ) + 1 } :=
  ⟨by simp [stArchive], by simp [stArchive],
   (c10_reset_by_stored_position stArchive orderA 0 (by simp [stArchive])
     (by simp [stArchive])).1⟩

/-! ### Claim C6 — daily aggregation: helper lemmas -/

/-- The day list of an interval is strictly ascending. -/
lemma eachDay_pairwise (rangeStart rangeEnd : ℚ) :
    (Reports.eachDayOfInterval rangeStart rangeEnd).Pairwise (· < ·) := by
  unfold Reports.eachDayOfInterval
  rw [List.pairwise_map]
  refine List.Pairwise.imp ?_ (List.pairwise_lt_range _)
  intro a b hab
  omega

/-- The day list of an interval has no duplicates. -/
lemma eachDay_nodup (rangeStart rangeEnd : ℚ) :
    (Reports.eachDayOfInterval rangeStart rangeEnd).Nodup :=
  (eachDay_pairwise rangeStart rangeEnd).imp ne_of_lt

/-- `dayOf` is monotone. -/
lemma dayOf_mono {s t : ℚ} (h : s ≤ t) : dayOf s ≤ dayOf t := by
  unfold dayOf
  have hm : (0 : ℚ) < msPerDay := by norm_num [msPerDay]
  exact Int.floor_le_floor ((div_le_div_iff_of_pos_right hm).2 h)

/-- Membership in the day list of a valid interval. -/
lemma mem_eachDay {rangeStart rangeEnd : ℚ} (h : rangeStart ≤ rangeEnd) {d : ℤ} :
    d ∈ Reports.eachDayOfInterval rangeStart rangeEnd ↔
      dayOf rangeStart ≤ d ∧ d ≤ dayOf rangeEnd := by
  have hmono : dayOf rangeStart ≤ dayOf rangeEnd := dayOf_mono h
  have htn := Int.toNat_of_nonneg (sub_nonneg.2 hmono)
  simp only [Reports.eachDayOfInterval, List.mem_map, List.mem_range]
  constructor
  · rintro ⟨i, hi, rfl⟩
    omega
  · rintro ⟨h1, h2⟩
    exact ⟨(d - dayOf rangeStart).toNat, by omega, by omega⟩

/-- A filtered order's day lies in the day list of the range. -/
lemma day_mem_of_filtered {orders : List Order} {rangeStart rangeEnd : ℚ}
    (h : rangeStart ≤ rangeEnd) {o : Order}
    (ho : o ∈ Reports.filteredOrders orders rangeStart rangeEnd) :
    dayOf o.timestamp ∈ Reports.eachDayOfInterval rangeStart rangeEnd := by
  rw [mem_eachDay h]
  rw [Reports.filteredOrders, List.mem_filter, decide_eq_true_eq] at ho
  exact ⟨dayOf_mono ho.2.1, dayOf_mono ho.2.2⟩

/-- Effect of one `upsertDay` on a dictionary whose (distinct) keys include
`d`: the entry at `d` is updated in place, all the rest is untouched. -/
lemma upsertDay_map (d : ℤ) (s : ℚ) :
    ∀ (days : List ℤ) (f : ℤ → ℚ) (g : ℤ → ℕ), days.Nodup → d ∈ days →
      Reports.upsertDay d s (days.map (fun k => (k, f k, g k))) =
        days.map (fun k =>
          (k, f k + (if k = d then s else 0), g k + (if k = d then 1 else 0))) := by
  intro days
  induction days with
  | nil => intro f g _ hmem; simp at hmem
  | cons k0 rest ih =>
      intro f g hnd hmem
      rcases List.nodup_cons.1 hnd with ⟨hk0, hndr⟩
      simp only [List.map_cons, Reports.upsertDay]
      by_cases hk : k0 = d
      · subst hk
        rw [if_pos rfl, if_pos rfl, if_pos rfl]
        congr 1
        refine (List.map_congr_left ?_).symm
        intro k hkmem
        have hne : k ≠ k0 := fun he => hk0 (he ▸ hkmem)
        simp [hne]
      · have hdm : d ∈ rest := by
          rcases List.mem_cons.1 hmem with he | hr
          · exact absurd he.symm hk
          · exact hr
        rw [if_neg hk, ih f g hndr hdm, if_neg hk, if_neg hk, add_zero, add_zero]

/-- The `forEach` accumulation of `salesData` over a dictionary holding every
relevant day exactly once: each day's entry receives the day's sales sum and
order count. -/
lemma foldl_upsert (days : List ℤ) (hnd : days.Nodup) :
    ∀ (l : List Order) (f : ℤ → ℚ) (g : ℤ → ℕ),
      (∀ o ∈ l, dayOf o.timestamp ∈ days) →
      l.foldl (fun dict o => Reports.upsertDay (dayOf o.timestamp)
          (Reports.salesContribution o) dict) (days.map (fun k => (k, f k, g k))) =
        days.map (fun k => (k, f k + Reports.daySum l k, g k + Reports.dayCount l k)) := by
  intro l
  induction l with
  | nil =>
      intro f g _
      simp [Reports.daySum, Reports.dayCount]
  | cons o rest ih =>
      intro f g hall
      simp only [List.foldl_cons]
      rw [upsertDay_map (dayOf o.timestamp) (Reports.salesContribution o) days f g hnd
        (hall o (List.mem_cons_self o rest))]
      rw [ih (fun k => f k + (if k = dayOf o.timestamp then Reports.salesContribution o else 0))
            (fun k => g k + (if k = dayOf o.timestamp then 1 else 0))
            (fun o' ho' => hall o' (List.mem_cons_of_mem _ ho'))]
      refine List.map_congr_left ?_
      intro k hk
      have hsum : Reports.daySum (o :: rest) k =
          (if k = dayOf o.timestamp then Reports.salesContribution o else 0) +
            Reports.daySum rest k := by
        rcases eq_or_ne (dayOf o.timestamp) k with hko | hko
        · simp [Reports.daySum, List.filter_cons, hko]
        · simp [Reports.daySum, List.filter_cons, hko, Ne.symm hko]
      have hcount : Reports.dayCount (o :: rest) k =
          (if k = dayOf o.timestamp then 1 else 0) + Reports.dayCount rest k := by
        rcases eq_or_ne (dayOf o.timestamp) k with hko | hko
        · simp only [Reports.dayCount, List.filter_cons, hko]
          simp
          omega
        · simp [Reports.dayCount, List.filter_cons, hko, Ne.symm hko]
      simp only [Prod.mk.injEq]
      exact ⟨trivial, by rw [hsum]; ring, by rw [hcount]; ring⟩

/-- The `isComplimentary ? 0 : total` contributions sum to the sum of `total`
over the non-complimentary orders. -/
lemma sum_salesContribution (m : List Order) :
    (m.map Reports.salesContribution).sum =
      ((m.filter (fun o => !o.isComplimentary)).map Order.total).sum := by
  induction m with
  | nil => rfl
  | cons o rest ih =>
      cases hc : o.isComplimentary <;>
        simp [Reports.salesContribution, List.filter_cons, hc, ih]

/-- Closed form of `salesData`: one entry per day of the range, in the order
of the day list, carrying that day's accumulated sales and order count. -/
lemma salesData_eq (orders : List Order) (rangeStart rangeEnd : ℚ)
    (h : rangeStart ≤ rangeEnd) :
    Reports.salesData orders rangeStart rangeEnd =
      (Reports.eachDayOfInterval rangeStart rangeEnd).map (fun d =>
        ⟨d, Reports.daySum (Reports.filteredOrders orders rangeStart rangeEnd) d,
            Reports.dayCount (Reports.filteredOrders orders rangeStart rangeEnd) d⟩) := by
  have hnd := eachDay_nodup rangeStart rangeEnd
  have hall : ∀ o ∈ Reports.filteredOrders orders rangeStart rangeEnd,
      dayOf o.timestamp ∈ Reports.eachDayOfInterval rangeStart rangeEnd :=
    fun o ho => day_mem_of_filtered h ho
  have hfold := foldl_upsert (Reports.eachDayOfInterval rangeStart rangeEnd) hnd
    (Reports.filteredOrders orders rangeStart rangeEnd)
    (fun _ => (0 : ℚ)) (fun _ => (0 : ℕ)) hall
  have hfold' : (Reports.filteredOrders orders rangeStart rangeEnd).foldl
      (fun dict o => Reports.upsertDay (dayOf o.timestamp)
        (Reports.salesContribution o) dict)
      ((Reports.eachDayOfInterval rangeStart rangeEnd).map
        (fun d => (d, (0 : ℚ), (0 : ℕ)))) =
      (Reports.eachDayOfInterval rangeStart rangeEnd).map (fun k =>
        (k, Reports.daySum (Reports.filteredOrders orders rangeStart rangeEnd) k,
            Reports.dayCount (Reports.filteredOrders orders rangeStart rangeEnd) k)) := by
    simpa using hfold
  have hsorted : List.Sorted (fun a b : ℤ × ℚ × ℕ => a.1 ≤ b.1)
      ((Reports.eachDayOfInterval rangeStart rangeEnd).map (fun k =>
        (k, Reports.daySum (Reports.filteredOrders orders rangeStart rangeEnd) k,
            Reports.dayCount (Reports.filteredOrders orders rangeStart rangeEnd) k))) := by
    rw [List.Sorted, List.pairwise_map]
    refine List.Pairwise.imp ?_ (eachDay_pairwise rangeStart rangeEnd)
    intro a b hab
    exact le_of_lt hab
  show (List.insertionSort (fun a b => a.1 ≤ b.1)
      ((Reports.filteredOrders orders rangeStart rangeEnd).foldl
        (fun dict o => Reports.upsertDay (dayOf o.timestamp)
          (Reports.salesContribution o) dict)
        ((Reports.eachDayOfInterval rangeStart rangeEnd).map
          (fun d => (d, (0 : ℚ), (0 : ℕ)))))).map
      (fun e : ℤ × ℚ × ℕ => (⟨e.1, e.2.1, e.2.2⟩ : Reports.DayEntry)) = _
  rw [hfold', List.Sorted.insertionSort_eq hsorted, List.map_map]
  rfl

/-- C6: over an inclusive range, the daily aggregation emits exactly
`(end day − start day) + 1` entries, one per calendar day of the range in
ascending date order; each entry's `sales` is the sum of `total` over the
day's non-complimentary filtered orders (so 0 for a day with no orders) and
its `orders` field counts all of the day's filtered orders, complimentary
included (0 for an empty day). -/
theorem c6_daily_aggregation (orders : List Order) (rangeStart rangeEnd : ℚ)
    (h : rangeStart ≤ rangeEnd) :
    (Reports.salesData orders rangeStart rangeEnd).length =
      (dayOf rangeEnd - dayOf rangeStart).toNat + 1 ∧
    (Reports.salesData orders rangeStart rangeEnd).map Reports.DayEntry.date =
      Reports.eachDayOfInterval rangeStart rangeEnd ∧
    ((Reports.salesData orders rangeStart rangeEnd).map
      Reports.DayEntry.date).Pairwise (· < ·) ∧
    Reports.salesData orders rangeStart rangeEnd =
      (Reports.eachDayOfInterval rangeStart rangeEnd).map (fun d =>
        { date := d
          sales := ((((Reports.filteredOrders orders rangeStart rangeEnd).filter
              (fun o => dayOf o.timestamp = d)).filter
              (fun o => !o.isComplimentary)).map Order.total).sum
          orders := ((Reports.filteredOrders orders rangeStart rangeEnd).filter
              (fun o => dayOf o.timestamp = d)).length }) := by
  have hdate : (Reports.salesData orders rangeStart rangeEnd).map
      Reports.DayEntry.date = Reports.eachDayOfInterval rangeStart rangeEnd := by
    rw [salesData_eq orders rangeStart rangeEnd h, List.map_map]
    exact List.map_id _
  refine ⟨?_, hdate, ?_, ?_⟩
  · have := congrArg List.length hdate
    simpa [Reports.eachDayOfInterval] using this
  · rw [hdate]
    exact eachDay_pairwise rangeStart rangeEnd
  · rw [salesData_eq orders rangeStart rangeEnd h]
    refine List.map_congr_left ?_
    intro d _
    simp only [Reports.DayEntry.mk.injEq]
    refine ⟨trivial, ?_, rfl⟩
    simp only [Reports.daySum]
    exact sum_salesContribution _

/-- Witness for `c6_daily_aggregation` on the one-day range `[0, 1000]`
holding the concrete $10 order. -/
theorem c6_daily_aggregation_witness :
    (0 : ℚ) ≤ 1000 ∧
    (Reports.salesData [clearOrder] 0 1000).length =
      (dayOf 1000 - dayOf 0).toNat + 1 ∧
    (Reports.salesData [clearOrder] 0 1000).map Reports.DayEntry.date =
      Reports.eachDayOfInterval 0 1000 :=
  ⟨by norm_num,
   (c6_daily_aggregation [clearOrder] 0 1000 (by norm_num)).1,
   (c6_daily_aggregation [clearOrder] 0 1000 (by norm_num)).2.1⟩
